import Mathlib

/-!
# Event broker subsystem: verification of the canonical matcher and brokers

Shallow embedding of the event broker subsystem (`framework/event`):
the canonical pattern matcher, the in-memory broker (`memory.go`), the
MQTT-style broker's subscription ref-counting and QoS resolution
(`nats.go`, second half), the subject-based broker's subject translation
(`nats.go`, first half), and the topic-exchange broker's `Close`
(`amqp.go`).

Go maps with string keys are embedded as association lists
(`List (String × _)`); Go's atomic counters become `Nat` fields; JSON
marshalling (`encoding/json`, external to the repository) is an abstract
encoder parameter `marshal : α → Option String` where `none` stands for
a marshalling error; handler functions are values of an opaque type `H`.
-/

namespace Cosmos

/-! ## Association list primitives for `map[string]V` -/

/-- Lookup in an association list: first binding for the key, embedding
a Go map read `m[k]` (`none` embeds the zero-value/absent case). -/
def getAssoc {A : Type} : List (String × A) → String → Option A
  | [], _ => none
  | (k, v) :: rest, key => if k == key then some v else getAssoc rest key

/-- Map write `m[k] = v`: replace the binding if the key is present,
append it otherwise. -/
def setAssoc {A : Type} : List (String × A) → String → A → List (String × A)
  | [], key, val => [(key, val)]
  | (k, v) :: rest, key, val =>
    if k == key then (key, val) :: rest else (k, v) :: setAssoc rest key val

/-- Map deletion `delete(m, k)`: remove the binding for the key (no-op
when absent). -/
def eraseAssoc {A : Type} : List (String × A) → String → List (String × A)
  | [], _ => []
  | (k, v) :: rest, key => if k == key then rest else (k, v) :: eraseAssoc rest key

/-! ## Canonical pattern matcher (`memory.go`: `matchEvent`, `matchEventParts`) -/

/-- Split a character list around each `'.'`, keeping empty segments.
Helper for `splitOnDot`. -/
def splitChars : List Char → List (List Char)
  | [] => [[]]
  | c :: cs =>
    if c = '.' then [] :: splitChars cs
    else
      match splitChars cs with
      | [] => [[c]]
      | t :: ts => (c :: t) :: ts

/-- Go `strings.Split(s, ".")` (standard library, external to the
repository), embedded structurally for the single-character separator:
split around each `'.'`; the empty string splits to `[""]` and empty
segments are kept, matching Go's semantics. -/
def splitOnDot (s : String) : List String :=
  (splitChars s.data).map (fun cs => String.mk cs)

/-- `matchEventParts` from `memory.go`: recursively matches event parts
against pattern parts, `"*"` for single-token and `"#"` for multi-token
matching, with the same check order as the Go function. -/
def matchEventParts : List String → List String → Bool
  | [], e => e.isEmpty
  | p :: _, [] => p == "#"
  | p :: ps, e :: es =>
    if p == "#" then true
    else if p == "*" || p == e then matchEventParts ps es
    else false

/-- `matchEvent` from `memory.go`: equality fast path, then split both
strings on `"."` (Go `strings.Split`, embedded as `splitOnDot`) and
match the token lists. -/
def matchEvent (pattern event : String) : Bool :=
  if pattern == event then true
  else matchEventParts (splitOnDot pattern) (splitOnDot event)

/-! ## Memory broker (`memory.go`) -/

/-- The nested handler registry `map[string]map[string]EventHandler`,
embedded as nested association lists: pattern → handlerID → handler. -/
abbrev Handlers (H : Type) := List (String × List (String × H))

/-- `MemoryBroker` state: the handler registry, the atomic `nextID`
counter, and the `isClosed` flag. -/
structure MemoryBroker (H : Type) where
  handlers : Handlers H
  nextID : Nat
  isClosed : Bool

/-- `NewMemoryBroker`: empty registry, counter at zero, not closed. -/
def NewMemoryBroker (H : Type) : MemoryBroker H :=
  { handlers := [], nextID := 0, isClosed := false }

/-- Errors a broker operation can return (`ErrBrokerClosed`, a context
error, or a `json.Marshal` error). -/
inductive BrokerError where
  | closed
  | ctxCancelled
  | encoding
  deriving DecidableEq

/-- The fan-out loop of `Publish`: every handler registered under a
pattern that matches the event receives a delivery; each delivery is
identified by (pattern, handlerID, handler). -/
def dispatched {H : Type} (handlers : Handlers H) (event : String) :
    List (String × String × H) :=
  (handlers.filter (fun ph => matchEvent ph.1 event)).flatMap
    (fun ph => ph.2.map (fun ih => (ph.1, ih.1, ih.2)))

/-- Result of `MemoryBroker.Publish`: the (unchanged) broker state, the
returned error, the encoded payload handed to the handlers, and the
deliveries that were started. -/
structure PublishResult (H : Type) where
  state : MemoryBroker H
  err : Option BrokerError
  encoded : Option String
  dispatches : List (String × String × H)

/-- `(*MemoryBroker).Publish`: fail if closed, then if the context is
already cancelled, then if encoding fails; otherwise marshal once and
dispatch to every handler of every matching pattern.  `json.Marshal`
(standard library) is the abstract parameter `marshal`, `none` standing
for a marshalling error. -/
def MemoryBroker.publish {H α : Type} (b : MemoryBroker H) (ctxCancelled : Bool)
    (marshal : α → Option String) (event : String) (payload : α) :
    PublishResult H :=
  if b.isClosed then ⟨b, some .closed, none, []⟩
  else if ctxCancelled then ⟨b, some .ctxCancelled, none, []⟩
  else
    match marshal payload with
    | none => ⟨b, some .encoding, none, []⟩
    | some enc => ⟨b, none, some enc, dispatched b.handlers event⟩

/-- Result of `MemoryBroker.Subscribe`: the new broker state, the
returned error, and the ID of the handler that was registered (the
unsubscribe closure captures this ID together with the pattern). -/
structure SubscribeResult (H : Type) where
  state : MemoryBroker H
  err : Option BrokerError
  handlerID : String

/-- `(*MemoryBroker).Subscribe`: fail if closed; otherwise allocate the
next handler ID, create the inner map when absent and register the
handler under (pattern, ID). -/
def MemoryBroker.subscribe {H : Type} (b : MemoryBroker H) (event : String)
    (handler : H) : SubscribeResult H :=
  if b.isClosed then ⟨b, some .closed, ""⟩
  else
    let handlerID := toString (b.nextID + 1)
    let inner := (getAssoc b.handlers event).getD []
    ⟨⟨setAssoc b.handlers event (setAssoc inner handlerID handler),
      b.nextID + 1, b.isClosed⟩, none, handlerID⟩

/-- The unsubscribe closure returned by `(*MemoryBroker).Subscribe`:
delete the captured handler ID from the pattern's inner map and drop the
pattern entry when it becomes empty; always returns nil. -/
def MemoryBroker.unsubscribe {H : Type} (b : MemoryBroker H)
    (event handlerID : String) : MemoryBroker H × Option BrokerError :=
  match getAssoc b.handlers event with
  | none => (b, none)
  | some inner =>
    let inner' := eraseAssoc inner handlerID
    if inner'.isEmpty then
      ({ b with handlers := eraseAssoc b.handlers event }, none)
    else
      ({ b with handlers := setAssoc b.handlers event inner' }, none)

/-- `(*MemoryBroker).Close`: set the closed flag, clear all handler
state, return nil. -/
def MemoryBroker.close {H : Type} (b : MemoryBroker H) :
    MemoryBroker H × Option BrokerError :=
  ({ handlers := [], nextID := b.nextID, isClosed := true }, none)

/-- Look up one handler by pattern and ID in a broker's registry. -/
def lookupHandler {H : Type} (b : MemoryBroker H) (pattern handlerID : String) :
    Option H :=
  (getAssoc b.handlers pattern).bind (fun inner => getAssoc inner handlerID)

/-! ## Topic translators (`nats.go`: `convertTopic`, `convertSubject`) -/

/-- Go `strings.ReplaceAll(s, old, new)` (standard library, external to
the repository) for a single-character pattern, embedded as a character
map: every occurrence of `oldc` becomes `newc`, all other characters are
unchanged. -/
def replaceChar (oldc newc : Char) (s : String) : String :=
  String.mk (s.data.map fun c => if c = oldc then newc else c)

/-- `convertTopic` from `nats.go`: event name to MQTT topic format,
first `'.'` → `'/'` (level separator), then `'*'` → `'+'` (single-level
wildcard); `'#'` is left unchanged. -/
def convertTopic (event : String) : String :=
  replaceChar '*' '+' (replaceChar '.' '/' event)

/-- `(*NATSBroker).convertSubject` from `nats.go`: replace the
multi-level wildcard `'#'` with NATS's `'>'` wildcard
(`strings.ReplaceAll(event, "#", ">")`). -/
def convertSubject (event : String) : String :=
  replaceChar '#' '>' event

/-! ## MQTT-style broker (`nats.go`, second half) -/

/-- `DefaultMQTTQoS`. -/
def DefaultMQTTQoS : Nat := 1

/-- `MQTTBroker` state: the handler registry keyed by translated topic,
the `subscriptions` set of topics with an open wire subscription
(`map[string]bool` where presence means `true`), the `nextID` counter
and the configured QoS level. -/
structure MQTTBroker (H : Type) where
  handlers : Handlers H
  subscriptions : List String
  nextID : Nat
  qos : Nat

/-- The QoS and local-state part of `NewMQTTBrokerWith`: a QoS of 0 is
replaced by `DefaultMQTTQoS` when the URL list is non-empty; the
registry starts empty. -/
def NewMQTTBrokerWith (H : Type) (qos : Nat) (urls : List String) :
    MQTTBroker H :=
  { handlers := [],
    subscriptions := [],
    nextID := 0,
    qos := if qos == 0 && urls.length > 0 then DefaultMQTTQoS else qos }

/-- A wire-level operation issued to the MQTT client: opening or closing
one native subscription for a topic (opens carry the QoS used). -/
inductive WireOp where
  | subscribeTopic (topic : String) (qos : Nat)
  | unsubscribeTopic (topic : String)
  deriving DecidableEq

/-- The shared local-removal step (`delete` of a handler ID followed by
the emptiness check) used both by the wire-open rollback in
`(*MQTTBroker).Subscribe` and by its unsubscribe closure.  Returns the
new registry and whether the topic's handler map became (or was already)
empty. -/
def removeHandler {H : Type} (handlers : Handlers H) (topic handlerID : String) :
    Handlers H × Bool :=
  match getAssoc handlers topic with
  | none => (eraseAssoc handlers topic, true)
  | some inner =>
    let inner' := eraseAssoc inner handlerID
    if inner'.isEmpty then (eraseAssoc handlers topic, true)
    else (setAssoc handlers topic inner', false)

/-- Result of `MQTTBroker.subscribe`: new broker state, whether an error
was returned, the wire operations issued, and the allocated handler ID. -/
structure MQTTSubscribeResult (H : Type) where
  state : MQTTBroker H
  err : Bool
  wireOps : List WireOp
  handlerID : String

/-- `(*MQTTBroker).Subscribe`: translate the topic, allocate a handler
ID, mark the topic's wire subscription open when it is the first handler
and register the handler locally; for a first handler, issue the wire
subscribe and, on wire failure (`wireOk = false`), roll the just-added
handler (and empty bookkeeping) back and return the error. -/
def MQTTBroker.subscribe {H : Type} (b : MQTTBroker H) (event : String)
    (handler : H) (wireOk : Bool) : MQTTSubscribeResult H :=
  let topic := convertTopic event
  let handlerID := toString (b.nextID + 1)
  let isFirst := !(b.subscriptions.contains topic)
  let subs1 := if isFirst then topic :: b.subscriptions else b.subscriptions
  let inner := (getAssoc b.handlers topic).getD []
  let handlers1 := setAssoc b.handlers topic (setAssoc inner handlerID handler)
  let b1 : MQTTBroker H := ⟨handlers1, subs1, b.nextID + 1, b.qos⟩
  if isFirst then
    if wireOk then ⟨b1, false, [.subscribeTopic topic b.qos], handlerID⟩
    else
      let rolled := removeHandler handlers1 topic handlerID
      let subs2 := if rolled.2 then subs1.erase topic else subs1
      ⟨⟨rolled.1, subs2, b.nextID + 1, b.qos⟩, true,
        [.subscribeTopic topic b.qos], handlerID⟩
  else ⟨b1, false, [], handlerID⟩

/-- The unsubscribe closure returned by `(*MQTTBroker).Subscribe`:
remove the captured handler locally; when the topic's handler map became
empty, drop the bookkeeping and issue the wire unsubscribe. -/
def MQTTBroker.unsubscribe {H : Type} (b : MQTTBroker H)
    (topic handlerID : String) : MQTTBroker H × List WireOp :=
  let removed := removeHandler b.handlers topic handlerID
  if removed.2 then
    (⟨removed.1, b.subscriptions.erase topic, b.nextID, b.qos⟩,
      [.unsubscribeTopic topic])
  else (⟨removed.1, b.subscriptions, b.nextID, b.qos⟩, [])

/-- `(*MQTTBroker).Publish`: marshal the payload, translate the event
name to topic format and hand (topic, configured QoS, encoded payload)
to the wire client; `none` is the marshal-failure return. -/
def MQTTBroker.publish {H α : Type} (b : MQTTBroker H)
    (marshal : α → Option String) (event : String) (payload : α) :
    Option (String × Nat × String) :=
  match marshal payload with
  | none => none
  | some enc => some (convertTopic event, b.qos, enc)

/-! ## Topic-exchange broker (`amqp.go`: `Close`) -/

/-- A close-time wire operation of the AMQP broker. -/
inductive AMQPCloseOp where
  | closeChannel
  | closeConn
  deriving DecidableEq

/-- `(*AMQPBroker).Close`: when the publish channel is present, close it
first; if that fails, still close the connection and return the channel
error; otherwise return the connection close result.  Errors of the two
underlying `Close` calls are the abstract parameters. -/
def AMQPClose (pubChPresent : Bool) (chCloseErr connCloseErr : Option String) :
    List AMQPCloseOp × Option String :=
  if pubChPresent then
    match chCloseErr with
    | some e => ([.closeChannel, .closeConn], some e)
    | none => ([.closeChannel, .closeConn], connCloseErr)
  else ([.closeConn], connCloseErr)

/-- A token list always matches itself. -/
theorem matchEventParts_self (l : List String) : matchEventParts l l = true := by
  induction l with
  | nil => rfl
  | cons p ps ih =>
    simp only [matchEventParts]
    by_cases h : p = "#"
    · simp [h]
    · simp [h, ih]

/-- The equality fast path of `matchEvent` is redundant: the result is
always the token-level match of the two splits. -/
theorem matchEvent_eq_parts (pattern event : String) :
    matchEvent pattern event
      = matchEventParts (splitOnDot pattern) (splitOnDot event) := by
  unfold matchEvent
  by_cases h : pattern = event
  · subst h
    simp [matchEventParts_self]
  · simp [h]

/-- Any pattern token list that continues after a `"#"` token matches
the same token lists as the one truncated right after the `"#"`. -/
theorem matchEventParts_hash_truncate (P S E : List String) :
    matchEventParts (P ++ "#" :: S) E = matchEventParts (P ++ ["#"]) E := by
  induction P generalizing E with
  | nil =>
    cases E with
    | nil => simp [matchEventParts]
    | cons e es => simp [matchEventParts]
  | cons p ps ih =>
    cases E with
    | nil => simp [matchEventParts]
    | cons e es =>
      simp only [List.cons_append, matchEventParts]
      by_cases h1 : p = "#"
      · simp [h1]
      · simp [h1, ih]

/-! ## Association list lemmas -/

theorem getAssoc_setAssoc_self {A : Type} (l : List (String × A)) (k : String)
    (v : A) : getAssoc (setAssoc l k v) k = some v := by
  induction l with
  | nil => simp [setAssoc, getAssoc]
  | cons kv rest ih =>
    obtain ⟨k', v'⟩ := kv
    by_cases h : k' = k
    · simp [setAssoc, getAssoc, h]
    · simp [setAssoc, getAssoc, h, ih]

theorem getAssoc_setAssoc_ne {A : Type} (l : List (String × A)) (k k' : String)
    (v : A) (hne : k' ≠ k) : getAssoc (setAssoc l k v) k' = getAssoc l k' := by
  induction l with
  | nil => simp [setAssoc, getAssoc, Ne.symm hne]
  | cons kv rest ih =>
    obtain ⟨k₀, v₀⟩ := kv
    by_cases h : k₀ = k
    · subst h
      simp [setAssoc, getAssoc, Ne.symm hne]
    · by_cases h' : k₀ = k'
      · subst h'
        simp [setAssoc, getAssoc, h]
      · simp [setAssoc, getAssoc, h, h', ih]

theorem getAssoc_eraseAssoc_ne {A : Type} (l : List (String × A)) (k k' : String)
    (hne : k' ≠ k) : getAssoc (eraseAssoc l k) k' = getAssoc l k' := by
  induction l with
  | nil => simp [eraseAssoc]
  | cons kv rest ih =>
    obtain ⟨k₀, v₀⟩ := kv
    by_cases h : k₀ = k
    · subst h
      simp [eraseAssoc, getAssoc, Ne.symm hne]
    · by_cases h' : k₀ = k'
      · subst h'
        simp [eraseAssoc, getAssoc, h]
      · simp [eraseAssoc, getAssoc, h, h', ih]

theorem getAssoc_eq_none_of_not_mem {A : Type} {l : List (String × A)}
    {k : String} (h : k ∉ l.map Prod.fst) : getAssoc l k = none := by
  induction l with
  | nil => rfl
  | cons kv rest ih =>
    obtain ⟨k₀, v₀⟩ := kv
    simp only [List.map_cons, List.mem_cons, not_or] at h
    simp [getAssoc, Ne.symm h.1, ih h.2]

theorem getAssoc_eraseAssoc_self {A : Type} {l : List (String × A)} {k : String}
    (hnd : (l.map Prod.fst).Nodup) : getAssoc (eraseAssoc l k) k = none := by
  induction l with
  | nil => rfl
  | cons kv rest ih =>
    obtain ⟨k₀, v₀⟩ := kv
    simp only [List.map_cons, List.nodup_cons] at hnd
    by_cases h : k₀ = k
    · subst h
      have he : eraseAssoc ((k₀, v₀) :: rest) k₀ = rest := by simp [eraseAssoc]
      rw [he]
      exact getAssoc_eq_none_of_not_mem hnd.1
    · simp [eraseAssoc, getAssoc, h, ih hnd.2]

theorem getAssoc_mem {A : Type} {l : List (String × A)} {k : String} {v : A}
    (h : getAssoc l k = some v) : (k, v) ∈ l := by
  induction l with
  | nil => simp [getAssoc] at h
  | cons kv rest ih =>
    obtain ⟨k₀, v₀⟩ := kv
    by_cases hk : k₀ = k
    · simp [getAssoc, hk] at h
      simp [hk, h]
    · simp [getAssoc, hk] at h
      exact List.mem_cons_of_mem _ (ih h)

theorem setAssoc_of_getAssoc_none {A : Type} {l : List (String × A)} {k : String}
    (v : A) (h : getAssoc l k = none) : setAssoc l k v = l ++ [(k, v)] := by
  induction l with
  | nil => rfl
  | cons kv rest ih =>
    obtain ⟨k₀, v₀⟩ := kv
    by_cases hk : k₀ = k
    · simp [getAssoc, hk] at h
    · simp only [getAssoc] at h
      simp [setAssoc, hk, ih (by simpa [hk] using h)]

theorem eraseAssoc_append_self {A : Type} {l : List (String × A)} {k : String}
    (v : A) (h : getAssoc l k = none) : eraseAssoc (l ++ [(k, v)]) k = l := by
  induction l with
  | nil => simp [eraseAssoc]
  | cons kv rest ih =>
    obtain ⟨k₀, v₀⟩ := kv
    by_cases hk : k₀ = k
    · simp [getAssoc, hk] at h
    · simp only [getAssoc] at h
      simp [eraseAssoc, hk, ih (by simpa [hk] using h)]

/-- `List.count` does not depend on which lawful `BEq` instance is in
scope. -/
theorem count_congr_beq {γ : Type} [DecidableEq γ] [inst : BEq γ]
    [instL : @LawfulBEq γ inst] (l : List γ) (x : γ) :
    @List.count γ inst x l = @List.count γ instBEqOfDecidableEq x l := by
  induction l with
  | nil => rfl
  | cons a l ih =>
    rw [@List.count_cons γ inst, @List.count_cons γ instBEqOfDecidableEq, ih]
    by_cases h : a = x <;> simp [h]

/-- A handler reachable by lookup under a matching pattern is among the
deliveries of the fan-out loop. -/
theorem mem_dispatched {H : Type} {handlers : Handlers H} {p i ev : String}
    {h : H} {inner : List (String × H)} (hp : getAssoc handlers p = some inner)
    (hi : getAssoc inner i = some h) (hm : matchEvent p ev = true) :
    (p, i, h) ∈ dispatched handlers ev := by
  refine List.mem_flatMap.mpr ⟨(p, inner), List.mem_filter.mpr ⟨getAssoc_mem hp, ?_⟩, ?_⟩
  · simpa using hm
  · exact List.mem_map.mpr ⟨(i, h), getAssoc_mem hi, rfl⟩

end Cosmos

namespace Cosmos

/-- C1: the canonical matcher `matchEvent` splits both arguments on `'.'`
and follows the recursive rule of `matchEventParts`: an empty pattern
matches only an empty event; an exhausted event matches only if the
current pattern token is `"#"`; a `"*"` token or an exactly-equal token
consumes one token of each and recurses; otherwise no match.  `matchEvent`
is the equality fast path followed by the token-level match, every string
matches itself, and the four documented examples evaluate as stated. -/
theorem c1_canonical_matcher :
    (∀ e : List String, matchEventParts [] e = e.isEmpty) ∧
    (∀ (p : String) (ps : List String),
      matchEventParts (p :: ps) [] = (p == "#")) ∧
    (∀ (p e : String) (ps es : List String),
      matchEventParts (p :: ps) (e :: es)
        = if p == "#" then true
          else if p == "*" || p == e then matchEventParts ps es
          else false) ∧
    (∀ pattern event : String,
      matchEvent pattern event
        = (pattern == event
            || matchEventParts (splitOnDot pattern) (splitOnDot event))) ∧
    (∀ s : String, matchEvent s s = true) ∧
    matchEvent "user.*.created" "user.123.created" = true ∧
    matchEvent "user.*.created" "user.123.456.created" = false ∧
    matchEvent "logs.#" "logs" = true ∧
    matchEvent "logs.#" "logs.error.db" = true := by
  refine ⟨fun e => rfl, fun p ps => rfl, fun p e ps es => rfl, ?_, ?_, ?_, ?_, ?_, ?_⟩
  · intro pattern event
    unfold matchEvent
    cases h : pattern == event <;> simp [h]
  · intro s
    simp [matchEvent]
  · decide
  · decide
  · decide
  · decide

/-- C2: publishing `"user.created"` on a Memory broker with the handlers
`l1` registered under `"user.*"` and `l2` under `"user.created"` (IDs
unique per pattern) succeeds and delivers the encoded payload to each of
the `l1.length + l2.length` handlers exactly once: the dispatch list is
duplicate-free, contains every registered handler, and has exactly
`l1.length + l2.length` entries — no handler is skipped and no handler
is invoked twice. -/
theorem c2_memory_fanout_exactly_once {H α : Type}
    (l1 l2 : List (String × H)) (n : Nat) (marshal : α → Option String)
    (payload : α) (enc : String) (hm : marshal payload = some enc)
    (h1 : (l1.map Prod.fst).Nodup) (h2 : (l2.map Prod.fst).Nodup) :
    let b : MemoryBroker H := ⟨[("user.*", l1), ("user.created", l2)], n, false⟩
    let r := b.publish false marshal "user.created" payload
    r.err = none ∧ r.encoded = some enc ∧
    r.dispatches
      = l1.map (fun ih => ("user.*", ih.1, ih.2))
        ++ l2.map (fun ih => ("user.created", ih.1, ih.2)) ∧
    r.dispatches.length = l1.length + l2.length ∧
    r.dispatches.Nodup ∧
    (∀ ih ∈ l1, ("user.*", ih.1, ih.2) ∈ r.dispatches) ∧
    (∀ ih ∈ l2, ("user.created", ih.1, ih.2) ∈ r.dispatches) := by
  intro b r
  have m1 : matchEvent "user.*" "user.created" = true := by decide
  have m2 : matchEvent "user.created" "user.created" = true := by decide
  have hdisp : dispatched b.handlers "user.created"
      = l1.map (fun ih => ("user.*", ih.1, ih.2))
        ++ l2.map (fun ih => ("user.created", ih.1, ih.2)) := by
    simp [dispatched, b, List.filter, m1, m2]
  have hr : r = ⟨b, none, some enc, dispatched b.handlers "user.created"⟩ := by
    simp [r, MemoryBroker.publish, b, hm]
  have hinj1 : Function.Injective (fun ih : String × H => ("user.*", ih.1, ih.2)) := by
    intro x y hxy
    obtain ⟨x1, x2⟩ := x
    obtain ⟨y1, y2⟩ := y
    simpa using hxy
  have hinj2 : Function.Injective
      (fun ih : String × H => ("user.created", ih.1, ih.2)) := by
    intro x y hxy
    obtain ⟨x1, x2⟩ := x
    obtain ⟨y1, y2⟩ := y
    simpa using hxy
  refine ⟨by rw [hr], by rw [hr], by rw [hr]; exact hdisp, ?_, ?_, ?_, ?_⟩
  · rw [hr]
    simp [hdisp]
  · rw [hr]
    show (dispatched b.handlers "user.created").Nodup
    rw [hdisp]
    rw [List.nodup_append]
    refine ⟨(List.Nodup.of_map _ h1).map hinj1, (List.Nodup.of_map _ h2).map hinj2, ?_⟩
    intro x hx1 hx2
    obtain ⟨y, _, hy⟩ := List.mem_map.mp hx1
    obtain ⟨z, _, hz⟩ := List.mem_map.mp hx2
    have hc : "user.*" = "user.created" :=
      congrArg Prod.fst (hy.trans hz.symm)
    exact absurd hc (by decide)
  · intro ih hmem
    rw [hr]
    show ("user.*", ih.1, ih.2) ∈ dispatched b.handlers "user.created"
    rw [hdisp]
    exact List.mem_append_left _ (List.mem_map_of_mem _ hmem)
  · intro ih hmem
    rw [hr]
    show ("user.created", ih.1, ih.2) ∈ dispatched b.handlers "user.created"
    rw [hdisp]
    exact List.mem_append_right _ (List.mem_map_of_mem _ hmem)

/-- Witness for C2 at a concrete broker with one handler per pattern. -/
theorem c2_memory_fanout_exactly_once_witness :
    ((fun (_ : Nat) => some "enc") 0 = some "enc") ∧
    (([("1", (10 : Nat))].map Prod.fst).Nodup) ∧
    (([("2", (20 : Nat))].map Prod.fst).Nodup) ∧
    (let b : MemoryBroker Nat :=
      ⟨[("user.*", [("1", 10)]), ("user.created", [("2", 20)])], 2, false⟩
     let r := b.publish false (fun (_ : Nat) => some "enc") "user.created" 0
     r.err = none ∧ r.encoded = some "enc" ∧
     r.dispatches
       = [("1", (10 : Nat))].map (fun ih => ("user.*", ih.1, ih.2))
         ++ [("2", (20 : Nat))].map (fun ih => ("user.created", ih.1, ih.2)) ∧
     r.dispatches.length = [("1", (10 : Nat))].length + [("2", (20 : Nat))].length ∧
     r.dispatches.Nodup ∧
     (∀ ih ∈ [("1", (10 : Nat))], ("user.*", ih.1, ih.2) ∈ r.dispatches) ∧
     (∀ ih ∈ [("2", (20 : Nat))], ("user.created", ih.1, ih.2) ∈ r.dispatches)) :=
  ⟨rfl, by decide, by decide,
    c2_memory_fanout_exactly_once [("1", 10)] [("2", 20)] 2
      (fun (_ : Nat) => some "enc") 0 "enc" rfl (by decide) (by decide)⟩

/-- C3: Close clears all registered handler state and returns nil, and
on a closed Memory broker every Publish and every Subscribe returns the
closed-broker error, for every event name, payload, pattern and handler,
without changing the broker state (so every call subsequent to Close
fails the same way). -/
theorem c3_memory_closed_deterministic {H α : Type} :
    (∀ b : MemoryBroker H,
      (b.close).2 = none ∧ (b.close).1.handlers = [] ∧
      (b.close).1.isClosed = true) ∧
    (∀ (b : MemoryBroker H) (ctx : Bool) (marshal : α → Option String)
        (event : String) (payload : α) (pattern : String) (handler : H),
      b.isClosed = true →
      ((b.publish ctx marshal event payload).err = some .closed ∧
       (b.publish ctx marshal event payload).state = b ∧
       (b.publish ctx marshal event payload).dispatches = [] ∧
       (b.subscribe pattern handler).err = some .closed ∧
       (b.subscribe pattern handler).state = b)) := by
  refine ⟨fun b => ⟨rfl, rfl, rfl⟩, ?_⟩
  intro b ctx marshal event payload pattern handler hclosed
  refine ⟨?_, ?_, ?_, ?_, ?_⟩ <;>
    simp [MemoryBroker.publish, MemoryBroker.subscribe, hclosed]

/-- Witness for C3 on a freshly closed broker. -/
theorem c3_memory_closed_deterministic_witness :
    (((NewMemoryBroker Nat).close).1.isClosed = true) ∧
    ((((NewMemoryBroker Nat).close).1.publish false
        (fun (_ : Nat) => some "enc") "user.created" 0).err = some .closed ∧
     (((NewMemoryBroker Nat).close).1.publish false
        (fun (_ : Nat) => some "enc") "user.created" 0).state
       = ((NewMemoryBroker Nat).close).1 ∧
     (((NewMemoryBroker Nat).close).1.publish false
        (fun (_ : Nat) => some "enc") "user.created" 0).dispatches = [] ∧
     (((NewMemoryBroker Nat).close).1.subscribe "user.*" 7).err = some .closed ∧
     (((NewMemoryBroker Nat).close).1.subscribe "user.*" 7).state
       = ((NewMemoryBroker Nat).close).1) :=
  ⟨rfl,
    (c3_memory_closed_deterministic (H := Nat) (α := Nat)).2
      ((NewMemoryBroker Nat).close).1 false (fun _ => some "enc")
      "user.created" 0 "user.*" 7 rfl⟩

/-- C6: the unsubscribe closure removes exactly the captured handler ID
(when IDs and patterns are unique, the removed handler is no longer
reachable), returns nil, and leaves every other handler — same pattern
or any other — in place, so a subsequent Publish of a matching event
still delivers to them. -/
theorem c6_memory_unsubscribe_frame {H : Type} (b : MemoryBroker H)
    (p i p' i' ev : String) (h : H) :
    ((b.unsubscribe p i).2 = none) ∧
    ((b.handlers.map Prod.fst).Nodup →
      (∀ inner0, getAssoc b.handlers p = some inner0 →
        (inner0.map Prod.fst).Nodup) →
      lookupHandler (b.unsubscribe p i).1 p i = none) ∧
    ((p' ≠ p ∨ i' ≠ i) → lookupHandler b p' i' = some h →
      (lookupHandler (b.unsubscribe p i).1 p' i' = some h ∧
       (matchEvent p' ev = true →
         (p', i', h) ∈ dispatched (b.unsubscribe p i).1.handlers ev))) := by
  refine ⟨?_, ?_, ?_⟩
  · unfold MemoryBroker.unsubscribe
    cases getAssoc b.handlers p with
    | none => rfl
    | some inner =>
      by_cases hE : (eraseAssoc inner i).isEmpty <;> simp [hE]
  · intro hnd hinner
    unfold MemoryBroker.unsubscribe
    cases hgp : getAssoc b.handlers p with
    | none => simp [lookupHandler, hgp]
    | some inner =>
      have hinn := hinner inner hgp
      dsimp only
      by_cases hE : (eraseAssoc inner i).isEmpty
      · rw [if_pos hE]
        simp [lookupHandler, getAssoc_eraseAssoc_self hnd]
      · rw [if_neg hE]
        show (getAssoc (setAssoc b.handlers p (eraseAssoc inner i)) p).bind
          (fun inner => getAssoc inner i) = none
        rw [getAssoc_setAssoc_self]
        simpa using getAssoc_eraseAssoc_self hinn
  · intro hne hlk
    obtain ⟨inner1, hg1, hi1⟩ :
        ∃ inner1, getAssoc b.handlers p' = some inner1 ∧
          getAssoc inner1 i' = some h := by
      unfold lookupHandler at hlk
      cases hg : getAssoc b.handlers p' with
      | none => rw [hg] at hlk; simp at hlk
      | some inner1 =>
        rw [hg] at hlk
        exact ⟨inner1, rfl, hlk⟩
    have hmain : lookupHandler (b.unsubscribe p i).1 p' i' = some h := by
      unfold MemoryBroker.unsubscribe
      cases hgp : getAssoc b.handlers p with
      | none => simp [lookupHandler, hg1, hi1]
      | some inner =>
        dsimp only
        by_cases hpp : p' = p
        · subst hpp
          have hii : i' ≠ i := by
            rcases hne with hne | hne
            · exact absurd rfl hne
            · exact hne
          have hinner1 : inner = inner1 := by
            rw [hgp] at hg1
            exact Option.some.inj hg1
          subst hinner1
          have hkeep : getAssoc (eraseAssoc inner i) i' = some h := by
            rw [getAssoc_eraseAssoc_ne _ _ _ hii]
            exact hi1
          have hE : ¬((eraseAssoc inner i).isEmpty = true) := by
            cases hx : eraseAssoc inner i with
            | nil => rw [hx] at hkeep; simp [getAssoc] at hkeep
            | cons a l => simp [List.isEmpty]
          rw [if_neg hE]
          show (getAssoc (setAssoc b.handlers p' (eraseAssoc inner i)) p').bind
            (fun inner => getAssoc inner i') = some h
          rw [getAssoc_setAssoc_self]
          simpa using hkeep
        · by_cases hE : (eraseAssoc inner i).isEmpty
          · rw [if_pos hE]
            show (getAssoc (eraseAssoc b.handlers p) p').bind
              (fun inner => getAssoc inner i') = some h
            rw [getAssoc_eraseAssoc_ne _ _ _ hpp, hg1]
            simpa using hi1
          · rw [if_neg hE]
            show (getAssoc (setAssoc b.handlers p (eraseAssoc inner i)) p').bind
              (fun inner => getAssoc inner i') = some h
            rw [getAssoc_setAssoc_ne _ _ _ _ hpp, hg1]
            simpa using hi1
    refine ⟨hmain, ?_⟩
    intro hmatch
    obtain ⟨inner2, hg2, hi2⟩ :
        ∃ inner2, getAssoc (b.unsubscribe p i).1.handlers p' = some inner2 ∧
          getAssoc inner2 i' = some h := by
      unfold lookupHandler at hmain
      cases hg : getAssoc (b.unsubscribe p i).1.handlers p' with
      | none => rw [hg] at hmain; simp at hmain
      | some inner2 =>
        rw [hg] at hmain
        exact ⟨inner2, rfl, hmain⟩
    exact mem_dispatched hg2 hi2 hmatch

/-- Witness for C6: removing handler `"1"` under `"user.*"` keeps
handler `"2"` under the same pattern reachable and delivered. -/
theorem c6_memory_unsubscribe_frame_witness :
    (("user.*" : String) ≠ "user.*" ∨ ("2" : String) ≠ "1") ∧
    lookupHandler (H := Nat)
      ⟨[("user.*", [("1", 10), ("2", 20)])], 2, false⟩ "user.*" "2" = some 20 ∧
    ((([("user.*", [("1", (10 : Nat)), ("2", 20)])] : Handlers Nat).map
        Prod.fst).Nodup) ∧
    (let b : MemoryBroker Nat := ⟨[("user.*", [("1", 10), ("2", 20)])], 2, false⟩
     (b.unsubscribe "user.*" "1").2 = none ∧
     (lookupHandler (b.unsubscribe "user.*" "1").1 "user.*" "2" = some 20 ∧
      (matchEvent "user.*" "user.created" = true →
        ("user.*", "2", (20 : Nat))
          ∈ dispatched (b.unsubscribe "user.*" "1").1.handlers "user.created"))) := by
  refine ⟨by decide, by decide, by decide, ?_, ?_⟩
  · exact (c6_memory_unsubscribe_frame
      ⟨[("user.*", [("1", 10), ("2", 20)])], 2, false⟩
      "user.*" "1" "user.*" "2" "user.created" 20).1
  · exact (c6_memory_unsubscribe_frame
      ⟨[("user.*", [("1", 10), ("2", 20)])], 2, false⟩
      "user.*" "1" "user.*" "2" "user.created" 20).2.2
      (by decide) (by decide)

/-- C10: Memory Publish is atomic on failure: when the broker is closed,
the context is already cancelled, or encoding the payload fails, Publish
returns a non-nil error, starts no deliveries, and leaves the broker
state (registry and closed flag) unchanged. -/
theorem c10_memory_publish_atomic_failure {H α : Type} (b : MemoryBroker H)
    (ctx : Bool) (marshal : α → Option String) (event : String) (payload : α) :
    (b.isClosed = true ∨ ctx = true ∨ marshal payload = none) →
    ((b.publish ctx marshal event payload).err ≠ none ∧
     (b.publish ctx marshal event payload).dispatches = [] ∧
     (b.publish ctx marshal event payload).state = b) := by
  intro hfail
  cases hb : b.isClosed <;> cases hctx : ctx <;> cases hm : marshal payload <;>
    simp_all [MemoryBroker.publish]

/-- Witness for C10: a failing encoder on an open broker. -/
theorem c10_memory_publish_atomic_failure_witness :
    ((NewMemoryBroker Nat).isClosed = true ∨ false = true ∨
      (fun (_ : Nat) => (none : Option String)) 0 = none) ∧
    (((NewMemoryBroker Nat).publish false
        (fun (_ : Nat) => (none : Option String)) "user.created" 0).err ≠ none ∧
     ((NewMemoryBroker Nat).publish false
        (fun (_ : Nat) => (none : Option String)) "user.created" 0).dispatches = [] ∧
     ((NewMemoryBroker Nat).publish false
        (fun (_ : Nat) => (none : Option String)) "user.created" 0).state
       = NewMemoryBroker Nat) :=
  ⟨Or.inr (Or.inr rfl),
    c10_memory_publish_atomic_failure (NewMemoryBroker Nat) false
      (fun _ => none) "user.created" 0 (Or.inr (Or.inr rfl))⟩

/-- C4: MQTT-style ref-counting.  A Subscribe for a topic with no open
wire subscription opens exactly one; while the topic stays subscribed,
further Subscribe calls and non-last unsubscribes issue zero wire
operations; unsubscribing the last handler issues exactly one wire
unsubscribe; and a wire-open failure rolls the registry (handlers and
subscription bookkeeping) back to its prior state and reports the
error. -/
theorem c4_mqtt_refcount {H : Type} (b : MQTTBroker H) (event : String)
    (handler : H) (topic handlerID : String) :
    (b.subscriptions.contains (convertTopic event) = false →
      ((b.subscribe event handler true).err = false ∧
       (b.subscribe event handler true).wireOps
         = [.subscribeTopic (convertTopic event) b.qos])) ∧
    (b.subscriptions.contains (convertTopic event) = true →
      ∀ wireOk, ((b.subscribe event handler wireOk).err = false ∧
        (b.subscribe event handler wireOk).wireOps = [])) ∧
    (∀ inner, getAssoc b.handlers topic = some inner →
      eraseAssoc inner handlerID ≠ [] →
      (b.unsubscribe topic handlerID).2 = []) ∧
    (∀ inner, getAssoc b.handlers topic = some inner →
      eraseAssoc inner handlerID = [] →
      (b.unsubscribe topic handlerID).2 = [.unsubscribeTopic topic]) ∧
    (b.subscriptions.contains (convertTopic event) = false →
      getAssoc b.handlers (convertTopic event) = none →
      ((b.subscribe event handler false).err = true ∧
       (b.subscribe event handler false).state.handlers = b.handlers ∧
       (b.subscribe event handler false).state.subscriptions
         = b.subscriptions)) := by
  refine ⟨?_, ?_, ?_, ?_, ?_⟩
  · intro h
    have hmem : convertTopic event ∉ b.subscriptions := by simpa using h
    constructor <;> simp [MQTTBroker.subscribe, hmem]
  · intro h wireOk
    have hmem : convertTopic event ∈ b.subscriptions := by simpa using h
    constructor <;> simp [MQTTBroker.subscribe, hmem]
  · intro inner hg hne
    have hE : ¬((eraseAssoc inner handlerID).isEmpty = true) := by
      cases hx : eraseAssoc inner handlerID with
      | nil => exact absurd hx hne
      | cons a l => simp [List.isEmpty]
    simp [MQTTBroker.unsubscribe, removeHandler, hg, hE]
  · intro inner hg hnil
    simp [MQTTBroker.unsubscribe, removeHandler, hg, hnil]
  · intro h hnone
    have hmem : convertTopic event ∉ b.subscriptions := by simpa using h
    have hid : setAssoc ((getAssoc b.handlers (convertTopic event)).getD [])
        (toString (b.nextID + 1)) handler
        = [(toString (b.nextID + 1), handler)] := by
      rw [hnone]
      rfl
    have hget1 : getAssoc (setAssoc b.handlers (convertTopic event)
        [(toString (b.nextID + 1), handler)]) (convertTopic event)
        = some [(toString (b.nextID + 1), handler)] :=
      getAssoc_setAssoc_self _ _ _
    have herase : eraseAssoc [(toString (b.nextID + 1), handler)]
        (toString (b.nextID + 1)) = [] := by
      simp [eraseAssoc]
    have hrest : eraseAssoc (setAssoc b.handlers (convertTopic event)
        [(toString (b.nextID + 1), handler)]) (convertTopic event)
        = b.handlers := by
      rw [setAssoc_of_getAssoc_none _ hnone]
      exact eraseAssoc_append_self _ hnone
    refine ⟨?_, ?_, ?_⟩ <;>
      simp [MQTTBroker.subscribe, removeHandler, hmem, hid, hget1, herase,
        hrest, List.erase_cons_head]

/-- Witness for C4 at concrete brokers: an empty broker for the first
subscribe and the rollback, a two-handler broker for churn, a one-handler
broker for the last unsubscribe. -/
theorem c4_mqtt_refcount_witness :
    (([] : List String).contains (convertTopic "user.created") = false) ∧
    (getAssoc ([] : Handlers Nat) (convertTopic "user.created") = none) ∧
    ((["t"] : List String).contains (convertTopic "t") = true) ∧
    (getAssoc ([("t", [("1", (5 : Nat)), ("2", 6)])] : Handlers Nat) "t"
      = some [("1", 5), ("2", 6)]) ∧
    (eraseAssoc [("1", (5 : Nat)), ("2", 6)] "1" ≠ []) ∧
    (eraseAssoc [("1", (5 : Nat))] "1" = []) ∧
    ((MQTTBroker.subscribe (⟨[], [], 0, 1⟩ : MQTTBroker Nat)
        "user.created" 7 true).err = false ∧
     (MQTTBroker.subscribe (⟨[], [], 0, 1⟩ : MQTTBroker Nat)
        "user.created" 7 true).wireOps
       = [.subscribeTopic (convertTopic "user.created") 1]) ∧
    ((MQTTBroker.subscribe (⟨[("t", [("1", 5), ("2", 6)])], ["t"], 2, 1⟩ :
        MQTTBroker Nat) "t" 7 false).err = false ∧
     (MQTTBroker.subscribe (⟨[("t", [("1", 5), ("2", 6)])], ["t"], 2, 1⟩ :
        MQTTBroker Nat) "t" 7 false).wireOps = []) ∧
    ((MQTTBroker.unsubscribe (⟨[("t", [("1", 5), ("2", 6)])], ["t"], 2, 1⟩ :
        MQTTBroker Nat) "t" "1").2 = []) ∧
    ((MQTTBroker.unsubscribe (⟨[("t", [("1", 5)])], ["t"], 1, 1⟩ :
        MQTTBroker Nat) "t" "1").2 = [.unsubscribeTopic "t"]) ∧
    ((MQTTBroker.subscribe (⟨[], [], 0, 1⟩ : MQTTBroker Nat)
        "user.created" 7 false).err = true ∧
     (MQTTBroker.subscribe (⟨[], [], 0, 1⟩ : MQTTBroker Nat)
        "user.created" 7 false).state.handlers = [] ∧
     (MQTTBroker.subscribe (⟨[], [], 0, 1⟩ : MQTTBroker Nat)
        "user.created" 7 false).state.subscriptions = []) :=
  ⟨by decide, by decide, by decide, by decide, by decide, by decide,
    (c4_mqtt_refcount (⟨[], [], 0, 1⟩ : MQTTBroker Nat)
      "user.created" 7 "t" "1").1 (by decide),
    (c4_mqtt_refcount (⟨[("t", [("1", 5), ("2", 6)])], ["t"], 2, 1⟩ :
      MQTTBroker Nat) "t" 7 "t" "1").2.1 (by decide) false,
    (c4_mqtt_refcount (⟨[("t", [("1", 5), ("2", 6)])], ["t"], 2, 1⟩ :
      MQTTBroker Nat) "t" 7 "t" "1").2.2.1 [("1", 5), ("2", 6)]
      (by decide) (by decide),
    (c4_mqtt_refcount (⟨[("t", [("1", 5)])], ["t"], 1, 1⟩ :
      MQTTBroker Nat) "t" 7 "t" "1").2.2.2.1 [("1", 5)]
      (by decide) (by decide),
    (c4_mqtt_refcount (⟨[], [], 0, 1⟩ : MQTTBroker Nat)
      "user.created" 7 "t" "1").2.2.2.2 (by decide) (by decide)⟩

/-- C7 counterexample: the claim says a non-trailing `'#'` is left
unchanged, but `convertSubject` rewrites every `'#'`: on the concrete
pattern `"a.#.b"` the code produces `"a.>.b"`, not `"a.#.b"`. -/
theorem c7_convert_subject_counterexample :
    convertSubject "a.#.b" = "a.>.b" ∧ ("a.>.b" : String) ≠ "a.#.b" := by
  constructor
  · decide
  · decide

/-- C7 (amended): `convertSubject` replaces every occurrence of `'#'`
with `'>'` — the trailing multi-level wildcard token and any non-trailing
`'#'` alike — and leaves every other character of the pattern unchanged
(a pattern without `'#'` is returned verbatim). -/
theorem c7_convert_subject_replaces_every_hash :
    (∀ s : String, (∀ c ∈ s.data, c ≠ '#') → convertSubject s = s) ∧
    (∀ s : String, (convertSubject s).data
        = s.data.map (fun c => if c = '#' then '>' else c)) ∧
    convertSubject "logs.#" = "logs.>" ∧
    convertSubject "a.#.b" = "a.>.b" ∧
    convertSubject "user.*.created" = "user.*.created" := by
  refine ⟨?_, fun s => rfl, by decide, by decide, by decide⟩
  intro s hall
  show String.mk (s.data.map fun c => if c = '#' then '>' else c) = s
  have hmap : (s.data.map fun c => if c = '#' then '>' else c) = s.data :=
    calc (s.data.map fun c => if c = '#' then '>' else c)
        = s.data.map id := List.map_congr_left (fun c hc => by simp [hall c hc])
      _ = s.data := List.map_id _
  rw [hmap]

/-- Witness for the amended C7 on a hash-free pattern. -/
theorem c7_convert_subject_replaces_every_hash_witness :
    (∀ c ∈ ("user.*" : String).data, c ≠ '#') ∧
    convertSubject "user.*" = "user.*" :=
  ⟨by decide, c7_convert_subject_replaces_every_hash.1 "user.*" (by decide)⟩

/-- C8 counterexample: an explicitly configured QoS 0 is not preserved —
with a non-empty URL list the constructor overrides it with the default
level 1, and Publish then uses level 1. -/
theorem c8_mqtt_qos_zero_counterexample :
    (NewMQTTBrokerWith Nat 0 ["mqtt://localhost:1883"]).qos = 1 ∧
    (NewMQTTBrokerWith Nat 0 ["mqtt://localhost:1883"]).qos ≠ 0 ∧
    MQTTBroker.publish (NewMQTTBrokerWith Nat 0 ["mqtt://localhost:1883"])
      (fun (_ : Nat) => some "{}") "user.created" 0
      = some ("user/created", 1, "{}") := by
  refine ⟨rfl, by decide, by decide⟩

/-- C8 (amended): the constructor preserves any non-zero QoS level (in
particular 1 and 2); a QoS of 0 is treated as unspecified and replaced
by the default level 1 whenever the URL list is non-empty (it survives
only with an empty URL list); and the broker uses exactly its stored
level for publish and for the wire subscribe. -/
theorem c8_mqtt_qos_default {H : Type} :
    (∀ (qos : Nat) (urls : List String), qos ≠ 0 →
      (NewMQTTBrokerWith H qos urls).qos = qos) ∧
    (∀ urls : List String, urls ≠ [] →
      (NewMQTTBrokerWith H 0 urls).qos = DefaultMQTTQoS) ∧
    ((NewMQTTBrokerWith H 0 []).qos = 0) ∧
    (∀ (b : MQTTBroker H) {α : Type} (marshal : α → Option String)
        (event : String) (payload : α) (enc : String),
      marshal payload = some enc →
      b.publish marshal event payload = some (convertTopic event, b.qos, enc)) ∧
    (∀ (b : MQTTBroker H) (event : String) (handler : H),
      b.subscriptions.contains (convertTopic event) = false →
      (b.subscribe event handler true).wireOps
        = [.subscribeTopic (convertTopic event) b.qos]) := by
  refine ⟨?_, ?_, rfl, ?_, ?_⟩
  · intro qos urls hq
    simp [NewMQTTBrokerWith, hq]
  · intro urls hu
    simp [NewMQTTBrokerWith, List.length_pos, hu]
  · intro b α marshal event payload enc hm
    simp [MQTTBroker.publish, hm]
  · intro b event handler h
    have hmem : convertTopic event ∉ b.subscriptions := by simpa using h
    simp [MQTTBroker.subscribe, hmem]

/-- Witness for the amended C8: QoS 2 is preserved, QoS 0 with one URL
becomes 1, and publish reports the stored level. -/
theorem c8_mqtt_qos_default_witness :
    ((2 : Nat) ≠ 0) ∧
    ((["u"] : List String) ≠ []) ∧
    ((fun (_ : Nat) => some "{}") 0 = some "{}") ∧
    ((NewMQTTBrokerWith Nat 2 ["u"]).qos = 2) ∧
    ((NewMQTTBrokerWith Nat 0 ["u"]).qos = DefaultMQTTQoS) ∧
    (MQTTBroker.publish (⟨[], [], 0, 2⟩ : MQTTBroker Nat)
      (fun (_ : Nat) => some "{}") "a.b" 0
      = some (convertTopic "a.b", (⟨[], [], 0, 2⟩ : MQTTBroker Nat).qos, "{}")) :=
  ⟨by decide, by decide, rfl,
    c8_mqtt_qos_default.1 2 ["u"] (by decide),
    c8_mqtt_qos_default.2.1 ["u"] (by decide),
    c8_mqtt_qos_default.2.2.2.1 (⟨[], [], 0, 2⟩ : MQTTBroker Nat)
      (fun (_ : Nat) => some "{}") "a.b" 0 "{}" rfl⟩

/-- C9: AMQP Close closes the dedicated publish channel first and then
the shared connection; the connection close is attempted even when the
publish-channel close fails, and in that case the channel close error is
the one returned. -/
theorem c9_amqp_close_order :
    (∀ (e : String) (connErr : Option String),
      AMQPClose true (some e) connErr
        = ([.closeChannel, .closeConn], some e)) ∧
    (∀ connErr : Option String,
      AMQPClose true none connErr = ([.closeChannel, .closeConn], connErr)) :=
  ⟨fun _ _ => rfl, fun _ => rfl⟩

/-- C5: a `"#"` pattern token matches unconditionally regardless of any
pattern tokens that follow it: truncating the pattern right after a
`"#"` token never changes the match result, and in particular the
pattern `"a.#.b"` matches exactly the same events as `"a.#"`. -/
theorem c5_hash_is_terminal :
    (∀ (P S E : List String),
      matchEventParts (P ++ "#" :: S) E = matchEventParts (P ++ ["#"]) E) ∧
    (∀ E : String, matchEvent "a.#.b" E = matchEvent "a.#" E) := by
  refine ⟨matchEventParts_hash_truncate, ?_⟩
  intro E
  rw [matchEvent_eq_parts, matchEvent_eq_parts]
  have h1 : splitOnDot "a.#.b" = ["a", "#", "b"] := by decide
  have h2 : splitOnDot "a.#" = ["a", "#"] := by decide
  rw [h1, h2]
  exact matchEventParts_hash_truncate ["a"] ["b"] (splitOnDot E)

end Cosmos
